import Mathlib

/-!
# Turbulence closure models: a shallow embedding

The models of `src/turbulenceModels` (`kOmega`, `EARSM`, `EARSMTrans`, `gammaSST`,
`kv2Omega`) are embedded as plain Lean definitions.

* A `volScalarField` on a mesh of `n` cells is a function `Fin n → ℚ`; the field
  operators `*`, `+`, `-`, `/`, `max`, `min` of the host library act cell by cell.
* A `dimensionedScalar` is modelled by its value; the physical dimensions it carries
  are not modelled.
* Members inherited from the host library (`nut_`, `nu()`) are fields of the model
  record.
* `Foam::scalar` is the binary64 floating-point type.  The accessors are first embedded
  over the exact rationals `ℚ`; this is the embedding used for which expression an
  accessor computes and for sign and order bounds.  Where rounding decides whether a
  relation holds (exact equalities and bounds of `EARSM::blend`, the equality case of
  `kv2Omega::epsilon`), the same source lines are embedded a second time in machine
  arithmetic, namespace `binary64`, with every operation rounded to nearest.
-/

namespace Foam

/-- Value type of all fields and coefficients. -/
abbrev scalar := ℚ

/-- Scalar field over a mesh of `n` cells. -/
abbrev volScalarField (n : ℕ) := Fin n → scalar

/-! ## Machine arithmetic

`Foam::scalar` is the IEEE 754 binary64 type.  Every arithmetic operation of the program
returns the rounding `binary64.fl` of the exact result: to nearest, a tie going to the value
with an even significand, with a 53-bit significand and gradual underflow at `2^-1074`.
An operation whose rounded result leaves the finite range returns an infinity; this is
`binary64.result` returning `none`.  The sign of zero is not modelled. -/

/-- Nearest integer to a rational, a tie going to the even neighbour. -/
def roundHalfEven (s : ℚ) : ℤ :=
  if s - ⌊s⌋ < 1 / 2 then ⌊s⌋
  else if 1 / 2 < s - ⌊s⌋ then ⌊s⌋ + 1
  else if ⌊s⌋ % 2 = 0 then ⌊s⌋ else ⌊s⌋ + 1

/-- Exponent of the unit in the last place of binary64 at the magnitude `x > 0`: 52 binary
places below the leading bit, and never below the subnormal spacing `2^-1074`. -/
def binary64.ulpExponent (x : ℚ) : ℤ := max (Int.log 2 x - 52) (-1074)

/-- Rounding of a non-negative rational to the binary64 grid at its magnitude. -/
def binary64.roundMagnitude (x : ℚ) : ℚ :=
  (roundHalfEven (x / 2 ^ binary64.ulpExponent x) : ℚ) * 2 ^ binary64.ulpExponent x

/-- Rounding of an exact result to binary64 (sign and magnitude are rounded separately). -/
def binary64.fl (x : ℚ) : ℚ :=
  if 0 ≤ x then binary64.roundMagnitude x else -binary64.roundMagnitude (-x)

/-- Result of a machine operation whose exact result is `x`: the rounded value, or `none`
when the rounded value lies beyond the largest finite binary64 value (the machine then
returns an infinity, and every later result is an infinity or a NaN). -/
def binary64.result (x : ℚ) : Option ℚ :=
  if |binary64.fl x| < 2 ^ 1024 then some (binary64.fl x) else none

/-- The rational `x` is a finite binary64 value. -/
def binary64.isValue (x : ℚ) : Prop := binary64.fl x = x ∧ |x| < 2 ^ 1024

/-! ## `kOmega` (Base/kOmega/kOmegaBase.H) -/

/-- Protected data of `class kOmega`, together with the inherited `nut_`, `nu()` and the
floors `kMin_`, `omegaMin_`. -/
structure kOmega (n : ℕ) where
  alphaK_ : scalar
  alphaOmega_ : scalar
  gamma_ : scalar
  beta_ : scalar
  betaStar_ : scalar
  y_ : volScalarField n
  k_ : volScalarField n
  omega_ : volScalarField n
  nut_ : volScalarField n
  nu : volScalarField n
  kMin_ : scalar
  omegaMin_ : scalar

/-- Modelled from the spec: the realizability clamp applied after a solve (the host
library function is not among the sources): the field is clamped from below, cell by
cell, to the floor `phiMin`. -/
def bound {n : ℕ} (phi : volScalarField n) (phiMin : scalar) : volScalarField n :=
  fun i => max (phi i) phiMin

namespace kOmega

variable {n : ℕ}

/-- Effective diffusivity for k: `alphaK_*nut_ + nu()`. -/
def DkEff (m : kOmega n) : volScalarField n :=
  fun i => m.alphaK_ * m.nut_ i + m.nu i

/-- Effective diffusivity for omega: `alphaOmega_*nut_ + nu()`. -/
def DomegaEff (m : kOmega n) : volScalarField n :=
  fun i => m.alphaOmega_ * m.nut_ i + m.nu i

/-- Accessor `k()`. -/
def k (m : kOmega n) : volScalarField n := m.k_

/-- Accessor `omega()`. -/
def omega (m : kOmega n) : volScalarField n := m.omega_

/-- Dissipation rate `epsilon()`: `betaStar_*k_*omega_`. -/
def epsilon (m : kOmega n) : volScalarField n :=
  fun i => m.betaStar_ * m.k_ i * m.omega_ i

/-- Modelled from the spec: the body of `kOmega::correctNut` (declared in kOmegaBase.H,
defined in kOmegaBase.C, which is not among the sources): the baseline eddy viscosity is
plain `k/omega`. -/
def correctNut (m : kOmega n) : kOmega n :=
  { m with nut_ := fun i => m.k_ i / m.omega_ i }

end kOmega

/-! ## `EARSM` (RAS/EARSM/EARSM.H) -/

namespace RASModels

/-- Protected data of `class EARSM`, together with the inherited `nut_` and `nu()`. -/
structure EARSM (n : ℕ) where
  betaStar_ : scalar
  gamma1_ : scalar
  gamma2_ : scalar
  beta1_ : scalar
  beta2_ : scalar
  alphaK1_ : scalar
  alphaK2_ : scalar
  alphaOmega1_ : scalar
  alphaOmega2_ : scalar
  alphaD1_ : scalar
  alphaD2_ : scalar
  kInf_ : scalar
  curvatureCorrection_ : Bool
  A0_ : scalar
  k_ : volScalarField n
  omega_ : volScalarField n
  y_ : volScalarField n
  nut_ : volScalarField n
  nu : volScalarField n

namespace EARSM

variable {n : ℕ}

/-- Linear interpolation `fMix*(psi1 - psi2) + psi2` of two coefficients. -/
def blend (fMix : volScalarField n) (psi1 psi2 : scalar) : volScalarField n :=
  fun i => fMix i * (psi1 - psi2) + psi2

/-- Blended coefficient `alphaK`. -/
def alphaK (m : EARSM n) (fMix : volScalarField n) : volScalarField n :=
  blend fMix m.alphaK1_ m.alphaK2_

/-- Blended coefficient `alphaOmega`. -/
def alphaOmega (m : EARSM n) (fMix : volScalarField n) : volScalarField n :=
  blend fMix m.alphaOmega1_ m.alphaOmega2_

/-- Effective diffusivity for k: `alphaK(fMix)*nut_ + nu()`. -/
def DkEff (m : EARSM n) (fMix : volScalarField n) : volScalarField n :=
  fun i => m.alphaK fMix i * m.nut_ i + m.nu i

/-- Effective diffusivity for omega: `alphaOmega(fMix)*nut_ + nu()`. -/
def DomegaEff (m : EARSM n) (fMix : volScalarField n) : volScalarField n :=
  fun i => m.alphaOmega fMix i * m.nut_ i + m.nu i

/-- Accessor `k()`. -/
def k (m : EARSM n) : volScalarField n := m.k_

/-- Accessor `omega()`. -/
def omega (m : EARSM n) : volScalarField n := m.omega_

/-- Dissipation rate `epsilon()`: `betaStar_*k_*omega_`. -/
def epsilon (m : EARSM n) : volScalarField n :=
  fun i => m.betaStar_ * m.k_ i * m.omega_ i

end EARSM

/-! ## `EARSMTrans` (RAS/EARSMTrans/EARSMTrans.H) -/

/-- Protected data of `class EARSMTrans`, together with the inherited `nut_` and `nu()`. -/
structure EARSMTrans (n : ℕ) where
  betaStar_ : scalar
  alphaK_ : scalar
  alphaOmega_ : scalar
  beta_ : scalar
  sigmaD_ : scalar
  gamma_ : scalar
  Ctau_ : scalar
  CSS_ : scalar
  CT_ : scalar
  AT_ : scalar
  productionLimiter_ : Bool
  k_ : volScalarField n
  omega_ : volScalarField n
  y_ : volScalarField n
  nut_ : volScalarField n
  nu : volScalarField n

namespace EARSMTrans

variable {n : ℕ}

/-- Effective diffusivity for k: `alphaK_*nut_ + nu()`. -/
def DkEff (m : EARSMTrans n) : volScalarField n :=
  fun i => m.alphaK_ * m.nut_ i + m.nu i

/-- Effective diffusivity for omega: `alphaOmega_*nut_ + nu()`. -/
def DomegaEff (m : EARSMTrans n) : volScalarField n :=
  fun i => m.alphaOmega_ * m.nut_ i + m.nu i

/-- Accessor `k()`. -/
def k (m : EARSMTrans n) : volScalarField n := m.k_

/-- Accessor `omega()`. -/
def omega (m : EARSMTrans n) : volScalarField n := m.omega_

/-- Dissipation rate `epsilon()`: `betaStar_*k_*omega_`. -/
def epsilon (m : EARSMTrans n) : volScalarField n :=
  fun i => m.betaStar_ * m.k_ i * m.omega_ i

end EARSMTrans

/-! ## `gammaSST` (RAS/gammaSST/gammaSST.H) -/

/-- Protected data of `class gammaSST`, together with the members it inherits from the SST
base class of the host library: the documented SST coefficients, the fields `k_`, `omega_`,
`nut_`, `nu()` and the floors `kMin_`, `omegaMin_`. -/
structure gammaSST (n : ℕ) where
  alphaK1_ : scalar
  alphaK2_ : scalar
  alphaOmega1_ : scalar
  alphaOmega2_ : scalar
  beta1_ : scalar
  beta2_ : scalar
  betaStar_ : scalar
  gamma1_ : scalar
  gamma2_ : scalar
  a1_ : scalar
  b1_ : scalar
  c1_ : scalar
  F3_ : Bool
  Flength_ : scalar
  ca2_ : scalar
  ce2_ : scalar
  sigmaGamma_ : scalar
  CPG1_ : scalar
  CPG1lim_ : scalar
  CPG2_ : scalar
  CPG3_ : scalar
  CPG2lim_ : scalar
  CTU1_ : scalar
  CTU2_ : scalar
  CTU3_ : scalar
  ReThetacLim_ : scalar
  Ck_ : scalar
  CSEP_ : scalar
  gammaInt_ : volScalarField n
  k_ : volScalarField n
  omega_ : volScalarField n
  nut_ : volScalarField n
  nu : volScalarField n
  kMin_ : scalar
  omegaMin_ : scalar

namespace gammaSST

variable {n : ℕ}

/-- Effective diffusivity for the intermittency: `nut_/sigmaGamma_ + nu()`. -/
def DgammaEff (m : gammaSST n) : volScalarField n :=
  fun i => m.nut_ i / m.sigmaGamma_ + m.nu i

/-- Accessor `gammaInt()`. -/
def gammaInt (m : gammaSST n) : volScalarField n := m.gammaInt_

/-- Turbulent Reynolds number `Rt()`: `k_/(nu()*omega_)`. -/
def Rt (m : gammaSST n) : volScalarField n :=
  fun i => m.k_ i / (m.nu i * m.omega_ i)

/-- Modelled from the spec: the eddy-viscosity update of the SST-style variant (inherited
from the SST base class of the host library, which is not among the sources): the
stress-limited formula `a1*k / max(a1*omega, S*F2)`, with the strain magnitude `S` and the
second blending field `F2` supplied by the caller. -/
def correctNut (m : gammaSST n) (S F2 : volScalarField n) : gammaSST n :=
  { m with nut_ := fun i => m.a1_ * m.k_ i / max (m.a1_ * m.omega_ i) (S i * F2 i) }

/-- Modelled from the spec: the body of `gammaSST::correct` (declared in gammaSST.H, defined
in gammaSST.C, which is not among the sources): one step solves the omega equation, the k
equation and the intermittency equation, clamps k and omega to their floors and the
intermittency to the unit interval, and recomputes the eddy viscosity.  The linear solves
are the host collaborator and return whatever field the solver produced. -/
def correct (solveOmega solveK solveGamma : gammaSST n → volScalarField n)
    (S F2 : volScalarField n) (m : gammaSST n) : gammaSST n :=
  let m1 : gammaSST n := { m with omega_ := bound (solveOmega m) m.omegaMin_ }
  let m2 : gammaSST n := { m1 with k_ := bound (solveK m1) m1.kMin_ }
  let m3 : gammaSST n := { m2 with gammaInt_ := fun i => min (max (solveGamma m2 i) 0) 1 }
  m3.correctNut S F2

end gammaSST

/-! ## `kv2Omega` (RAS/kv2Omega/kv2Omega.H) -/

/-- Protected data of `class kv2Omega`, together with the inherited `nut_` and `nu()`. -/
structure kv2Omega (n : ℕ) where
  A0_ : scalar
  AS_ : scalar
  Anu_ : scalar
  ABP_ : scalar
  ANAT_ : scalar
  ATS_ : scalar
  CBPcrit_ : scalar
  CNC_ : scalar
  CNATcrit_ : scalar
  CINT_ : scalar
  CTScrit_ : scalar
  CRNAT_ : scalar
  C11_ : scalar
  C12_ : scalar
  CR_ : scalar
  CalphaTheta_ : scalar
  CSS_ : scalar
  Ctau1_ : scalar
  Cw1_ : scalar
  Cw2_ : scalar
  CwR_ : scalar
  Clambda_ : scalar
  betaStar_ : scalar
  PrTheta_ : scalar
  sigmaK_ : scalar
  sigmaW_ : scalar
  sigmaW2_ : scalar
  k_ : volScalarField n
  v2_ : volScalarField n
  omega_ : volScalarField n
  y_ : volScalarField n
  nut_ : volScalarField n
  nu : volScalarField n

namespace kv2Omega

variable {n : ℕ}

/-- Effective diffusivity for k: `alphaT/sigmaK_ + nu()`. -/
def DkEff (m : kv2Omega n) (alphaT : volScalarField n) : volScalarField n :=
  fun i => alphaT i / m.sigmaK_ + m.nu i

/-- Effective diffusivity for omega: `alphaT/sigmaW_ + nu()`. -/
def DomegaEff (m : kv2Omega n) (alphaT : volScalarField n) : volScalarField n :=
  fun i => alphaT i / m.sigmaW_ + m.nu i

/-- Accessor `k()`. -/
def k (m : kv2Omega n) : volScalarField n := m.k_

/-- Accessor `v2()`. -/
def v2 (m : kv2Omega n) : volScalarField n := m.v2_

/-- Accessor `omega()`. -/
def omega (m : kv2Omega n) : volScalarField n := m.omega_

end kv2Omega

/-- Modelled from the spec: the blending function (`EARSM::fMix`, `gammaSST::F1`,
`kv2Omega::F1` are declared in the headers and defined in .C files that are not among the
sources): `tanh(arg⁴)` applied cell by cell, where `arg` is the wall-distance argument the
variant computes from the wall distance, the viscosity and the current k and omega.  The
hyperbolic tangent is the real one, so this definition is over the reals. -/
noncomputable def blendingField {n : ℕ} (arg : Fin n → ℝ) : Fin n → ℝ :=
  fun i => Real.tanh (arg i ^ 4)

end RASModels

/-! ## The blending and dissipation expressions in machine arithmetic

The same source lines as `EARSM.blend`, its five accessors and `kv2Omega::epsilon`, with
every operation rounded as the machine rounds it.  A value `none` stands for a result that
is not a finite number. -/

/-- `EARSM::blend` in machine arithmetic: `fMix*(psi1 - psi2) + psi2`, where the difference,
the product and the sum are each one machine operation. -/
def binary64.EARSM.blend {n : ℕ} (fMix : volScalarField n) (psi1 psi2 : scalar) :
    Fin n → Option scalar :=
  fun i => (binary64.result (psi1 - psi2)).bind fun d =>
    (binary64.result (fMix i * d)).bind fun p => binary64.result (p + psi2)

/-- `EARSM::alphaK` in machine arithmetic. -/
def binary64.EARSM.alphaK {n : ℕ} (m : RASModels.EARSM n) (fMix : volScalarField n) :
    Fin n → Option scalar :=
  binary64.EARSM.blend fMix m.alphaK1_ m.alphaK2_

/-- `EARSM::alphaOmega` in machine arithmetic. -/
def binary64.EARSM.alphaOmega {n : ℕ} (m : RASModels.EARSM n) (fMix : volScalarField n) :
    Fin n → Option scalar :=
  binary64.EARSM.blend fMix m.alphaOmega1_ m.alphaOmega2_

/-- `kv2Omega::epsilon` in machine arithmetic: `omega_ * min(k_, v2_) + D(k_)`, the product
and the sum each one machine operation.  The virtual member `D` is declared in the header
and defined elsewhere; it is a parameter here. -/
def binary64.kv2Omega.epsilon {n : ℕ} (m : RASModels.kv2Omega n)
    (D : volScalarField n → volScalarField n) : Fin n → Option scalar :=
  fun i => (binary64.result (m.omega_ i * min (m.k_ i) (m.v2_ i))).bind fun p =>
    binary64.result (p + D m.k_ i)

/-- The expression `omega_*k_ + D(k_)` in machine arithmetic, against which the claim
compares `kv2Omega::epsilon`. -/
def binary64.kv2Omega.omegaKPlusD {n : ℕ} (m : RASModels.kv2Omega n)
    (D : volScalarField n → volScalarField n) : Fin n → Option scalar :=
  fun i => (binary64.result (m.omega_ i * m.k_ i)).bind fun p =>
    binary64.result (p + D m.k_ i)

/-! ## Tensor utilities -/

/-- Velocity-gradient tensor of one cell: a 3×3 matrix of scalars. -/
abbrev tensor := Matrix (Fin 3) (Fin 3) scalar

/-- Modelled from the spec: the strain-rate tensor `S = ½(∇U + ∇Uᵀ)` computed at the start
of `correctNonlinearStress` (defined in EARSM.C, which is not among the sources). -/
def strainRate (gradU : tensor) : tensor :=
  (1 / 2 : scalar) • (gradU + Matrix.transpose gradU)

/-- Modelled from the spec: the rotation-rate tensor `W = ½(∇U − ∇Uᵀ)` computed at the start
of `correctNonlinearStress` (defined in EARSM.C, which is not among the sources). -/
def rotationRate (gradU : tensor) : tensor :=
  (1 / 2 : scalar) • (gradU - Matrix.transpose gradU)

/-! ## Concrete states used to instantiate the theorems -/

/-- One-cell baseline model with the documented default coefficients and positive floors. -/
def kOmegaExample : kOmega 1 where
  alphaK_ := 1 / 2
  alphaOmega_ := 1 / 2
  gamma_ := 13 / 25
  beta_ := 9 / 125
  betaStar_ := 9 / 100
  y_ := fun _ => 1
  k_ := fun _ => 1
  omega_ := fun _ => 1
  nut_ := fun _ => 0
  nu := fun _ => 1 / 100000
  kMin_ := 1 / 1000000
  omegaMin_ := 1 / 1000000

/-- One-cell EARSM model with the documented default coefficients. -/
def EARSMExample : RASModels.EARSM 1 where
  betaStar_ := 9 / 100
  gamma1_ := 518 / 1000
  gamma2_ := 44 / 100
  beta1_ := 747 / 10000
  beta2_ := 828 / 10000
  alphaK1_ := 11 / 10
  alphaK2_ := 11 / 10
  alphaOmega1_ := 53 / 100
  alphaOmega2_ := 1
  alphaD1_ := 1
  alphaD2_ := 2 / 5
  kInf_ := 1 / 10000000000
  curvatureCorrection_ := false
  A0_ := -18 / 25
  k_ := fun _ => 1
  omega_ := fun _ => 1
  y_ := fun _ => 1
  nut_ := fun _ => 1
  nu := fun _ => 1 / 100000

/-- One-cell gammaSST model with the documented default coefficients; the three
coefficients without a documented default are set to 1100, 1 and 1. -/
def gammaSSTExample : RASModels.gammaSST 1 where
  alphaK1_ := 85 / 100
  alphaK2_ := 1
  alphaOmega1_ := 1 / 2
  alphaOmega2_ := 856 / 1000
  beta1_ := 75 / 1000
  beta2_ := 828 / 10000
  betaStar_ := 9 / 100
  gamma1_ := 5 / 9
  gamma2_ := 44 / 100
  a1_ := 31 / 100
  b1_ := 1
  c1_ := 10
  F3_ := false
  Flength_ := 100
  ca2_ := 6 / 100
  ce2_ := 50
  sigmaGamma_ := 1
  CPG1_ := 1468 / 100
  CPG1lim_ := 3 / 2
  CPG2_ := -734 / 100
  CPG3_ := 0
  CPG2lim_ := 3
  CTU1_ := 100
  CTU2_ := 1000
  CTU3_ := 1
  ReThetacLim_ := 1100
  Ck_ := 1
  CSEP_ := 1
  gammaInt_ := fun _ => 1
  k_ := fun _ => 1
  omega_ := fun _ => 1
  nut_ := fun _ => 0
  nu := fun _ => 1 / 100000
  kMin_ := 1 / 1000000
  omegaMin_ := 1 / 1000000

/-- One-cell EARSMTrans model with the documented default coefficients (limiter off). -/
def EARSMTransExample : RASModels.EARSMTrans 1 where
  betaStar_ := 9 / 100
  alphaK_ := 101 / 100
  alphaOmega_ := 1 / 2
  beta_ := 75 / 1000
  sigmaD_ := 52 / 100
  gamma_ := 5 / 9
  Ctau_ := 6
  CSS_ := 13 / 4
  CT_ := 145 / 80
  AT_ := 1
  productionLimiter_ := false
  k_ := fun _ => 1
  omega_ := fun _ => 1
  y_ := fun _ => 1
  nut_ := fun _ => 1
  nu := fun _ => 1 / 100000

/-- One-cell kv2Omega model with the documented default coefficients; `v2` is below `k`. -/
def kv2OmegaExample : RASModels.kv2Omega 1 where
  A0_ := 404 / 100
  AS_ := 212 / 100
  Anu_ := 38 / 10
  ABP_ := 6 / 10
  ANAT_ := 200
  ATS_ := 200
  CBPcrit_ := 3 / 2
  CNC_ := 1 / 10
  CNATcrit_ := 1450
  CINT_ := 95 / 100
  CTScrit_ := 1000
  CRNAT_ := 2 / 100
  C11_ := 34 / 10000000
  C12_ := 1 / 10000000000
  CR_ := 32 / 100
  CalphaTheta_ := 35 / 1000
  CSS_ := 3
  Ctau1_ := 4360
  Cw1_ := 44 / 100
  Cw2_ := 92 / 100
  CwR_ := 115 / 100
  Clambda_ := 2495 / 1000
  betaStar_ := 9 / 100
  PrTheta_ := 85 / 100
  sigmaK_ := 1
  sigmaW_ := 117 / 100
  sigmaW2_ := 1856 / 1000
  k_ := fun _ => 2
  v2_ := fun _ => 1
  omega_ := fun _ => 3
  y_ := fun _ => 1
  nut_ := fun _ => 1
  nu := fun _ => 1 / 100000

/-- One-cell kv2Omega model with `k = 1`, `v2 = 0.5` and `omega = 1`. -/
def kv2OmegaAbsorbExample : RASModels.kv2Omega 1 :=
  { kv2OmegaExample with k_ := fun _ => 1, v2_ := fun _ => 1 / 2, omega_ := fun _ => 1 }

/-! ## Theorems -/

open RASModels

/-- C2: blending a coefficient with itself returns that coefficient, for any value of the
blending field (inside or outside the unit interval). -/
theorem EARSM_blend_same {n : ℕ} (fMix : volScalarField n) (a : scalar) :
    EARSM.blend fMix a a = fun _ => a := by
  funext i
  simp [EARSM.blend]

/-- C4: in every cell the dissipation rate returned by `kOmega::epsilon`, `EARSM::epsilon`
and `EARSMTrans::epsilon` is `betaStar*k*omega`, computed from the current k and omega
(the values the accessors `k()` and `omega()` return). -/
theorem epsilon_eq_betaStar_k_omega {n : ℕ} (b : kOmega n) (e : EARSM n)
    (t : EARSMTrans n) :
    (b.epsilon = fun i => b.betaStar_ * b.k i * b.omega i) ∧
    (e.epsilon = fun i => e.betaStar_ * e.k i * e.omega i) ∧
    (t.epsilon = fun i => t.betaStar_ * t.k i * t.omega i) :=
  ⟨rfl, rfl, rfl⟩

/-- C5: the baseline effective diffusivities are `alphaK*nut + nu` and `alphaOmega*nut + nu`;
the EARSM ones are the same expression with the coefficient replaced by the blend of its
inner and outer value. -/
theorem DkEff_DomegaEff_eq {n : ℕ} (b : kOmega n) (e : EARSM n) (fMix : volScalarField n)
    (i : Fin n) :
    b.DkEff i = b.alphaK_ * b.nut_ i + b.nu i ∧
    b.DomegaEff i = b.alphaOmega_ * b.nut_ i + b.nu i ∧
    e.DkEff fMix i = EARSM.blend fMix e.alphaK1_ e.alphaK2_ i * e.nut_ i + e.nu i ∧
    e.DomegaEff fMix i
      = EARSM.blend fMix e.alphaOmega1_ e.alphaOmega2_ i * e.nut_ i + e.nu i ∧
    e.DkEff fMix i = (fMix i * (e.alphaK1_ - e.alphaK2_) + e.alphaK2_) * e.nut_ i + e.nu i ∧
    e.DomegaEff fMix i
      = (fMix i * (e.alphaOmega1_ - e.alphaOmega2_) + e.alphaOmega2_) * e.nut_ i + e.nu i :=
  ⟨rfl, rfl, rfl, rfl, rfl, rfl⟩

/-- C7: in every cell the blending field `tanh(arg⁴)` lies in the unit interval, whatever
value the wall-distance argument takes there. -/
theorem blendingField_mem_unit {n : ℕ} (arg : Fin n → ℝ) (i : Fin n) :
    0 ≤ blendingField arg i ∧ blendingField arg i ≤ 1 := by
  have hx : (0 : ℝ) ≤ arg i ^ 4 := by positivity
  have hc : 0 < Real.cosh (arg i ^ 4) := Real.cosh_pos _
  simp only [blendingField, Real.tanh_eq_sinh_div_cosh]
  exact ⟨div_nonneg (Real.sinh_nonneg_iff.2 hx) hc.le,
    (div_le_one hc).2 (Real.sinh_lt_cosh _).le⟩

/-- C10: the baseline `correctNut()` sets the eddy viscosity to `k/omega` in every cell with
`k ≥ 0` and `omega > 0` (so that `nut*omega = k` and `nut ≥ 0`), leaving k and omega as they
were; where `k = 1` and `omega = 1` the eddy viscosity is 1. -/
theorem kOmega_correctNut_eq {n : ℕ} (m : kOmega n) (i : Fin n)
    (hk : 0 ≤ m.k_ i) (hw : 0 < m.omega_ i) :
    m.correctNut.nut_ i = m.k_ i / m.omega_ i ∧
    m.correctNut.nut_ i * m.omega_ i = m.k_ i ∧
    0 ≤ m.correctNut.nut_ i ∧
    m.correctNut.k_ = m.k_ ∧ m.correctNut.omega_ = m.omega_ ∧
    (m.k_ i = 1 → m.omega_ i = 1 → m.correctNut.nut_ i = 1) := by
  refine ⟨rfl, ?_, div_nonneg hk hw.le, rfl, rfl, ?_⟩
  · exact div_mul_cancel₀ _ hw.ne.symm
  · intro h1 h2
    simp [kOmega.correctNut, h1, h2]

/-- Instance of C10: the uniform-shear scenario, `k = 1` and `omega = 1` in the cell. -/
theorem kOmega_correctNut_eq_witness :
    (0 ≤ kOmegaExample.k_ 0 ∧ 0 < kOmegaExample.omega_ 0 ∧
      kOmegaExample.k_ 0 = 1 ∧ kOmegaExample.omega_ 0 = 1) ∧
    kOmegaExample.correctNut.nut_ 0 = 1 :=
  ⟨⟨by norm_num [kOmegaExample], by norm_num [kOmegaExample], rfl, rfl⟩,
    (kOmega_correctNut_eq kOmegaExample 0 (by norm_num [kOmegaExample])
      (by norm_num [kOmegaExample])).2.2.2.2.2 rfl rfl⟩

/-- C12: after one `correct()` step of the gammaSST variant the intermittency lies in the
unit interval in every cell, from any prior state and whatever field the intermittency
solve returned (hence for any values of the onset correlations that enter its sources). -/
theorem gammaSST_correct_gammaInt_mem_unit {n : ℕ} (g : gammaSST n)
    (solveOmega solveK solveGamma : gammaSST n → volScalarField n)
    (S F2 : volScalarField n) (i : Fin n) :
    0 ≤ (g.correct solveOmega solveK solveGamma S F2).gammaInt i ∧
    (g.correct solveOmega solveK solveGamma S F2).gammaInt i ≤ 1 :=
  ⟨le_min (le_max_right _ _) zero_le_one, min_le_right _ _⟩

/-- C14: for every velocity-gradient tensor the strain-rate tensor is symmetric, the
rotation-rate tensor is antisymmetric, and their sum is the velocity gradient; both are
total functions of the gradient. -/
theorem strainRate_rotationRate_decomposition (gradU : tensor) :
    Matrix.transpose (strainRate gradU) = strainRate gradU ∧
    Matrix.transpose (rotationRate gradU) = -rotationRate gradU ∧
    strainRate gradU + rotationRate gradU = gradU := by
  refine ⟨?_, ?_, ?_⟩
  · ext i j
    simp only [strainRate, Matrix.transpose_apply, Matrix.smul_apply, Matrix.add_apply,
      smul_eq_mul]
    ring
  · ext i j
    simp only [rotationRate, Matrix.transpose_apply, Matrix.smul_apply, Matrix.sub_apply,
      Matrix.neg_apply, smul_eq_mul]
    ring
  · ext i j
    simp only [strainRate, rotationRate, Matrix.transpose_apply, Matrix.smul_apply,
      Matrix.add_apply, Matrix.sub_apply, smul_eq_mul]
    ring

/-- C18: when the inner and outer k-diffusivity coefficients of EARSM coincide, `DkEff(fMix)`
does not depend on the blending field: it is `a*nut + nu`, the fixed-coefficient `DkEff()`
of kOmega and of EARSMTrans with `alphaK = a` on the same `nut` and `nu`. -/
theorem EARSM_DkEff_degenerate {n : ℕ} (e : EARSM n) (b : kOmega n) (t : EARSMTrans n)
    (a : scalar) (fMix : volScalarField n)
    (h1 : e.alphaK1_ = a) (h2 : e.alphaK2_ = a) :
    (e.DkEff fMix = fun i => a * e.nut_ i + e.nu i) ∧
    (b.alphaK_ = a → b.nut_ = e.nut_ → b.nu = e.nu → e.DkEff fMix = b.DkEff) ∧
    (t.alphaK_ = a → t.nut_ = e.nut_ → t.nu = e.nu → e.DkEff fMix = t.DkEff) := by
  have key : e.DkEff fMix = fun i => a * e.nut_ i + e.nu i := by
    funext i
    simp only [EARSM.DkEff, EARSM.alphaK, EARSM.blend, h1, h2]
    ring
  refine ⟨key, ?_, ?_⟩
  · intro ha hn hv
    rw [key]
    funext i
    simp only [kOmega.DkEff, ha, hn, hv]
  · intro ha hn hv
    rw [key]
    funext i
    simp only [EARSMTrans.DkEff, ha, hn, hv]

/-- Instance of C18: the default EARSM coefficients (`alphaK1 = alphaK2 = 1.1`) against the
baseline and EARSMTrans models with `alphaK = 1.1` on the same fields. -/
theorem EARSM_DkEff_degenerate_witness :
    (EARSMExample.alphaK1_ = 11 / 10 ∧ EARSMExample.alphaK2_ = 11 / 10) ∧
    EARSMExample.DkEff (fun _ => 1 / 3)
      = ({ kOmegaExample with alphaK_ := 11 / 10, nut_ := fun _ => 1 } : kOmega 1).DkEff ∧
    EARSMExample.DkEff (fun _ => 1 / 3)
      = ({ EARSMTransExample with alphaK_ := 11 / 10 } : EARSMTrans 1).DkEff :=
  have h := EARSM_DkEff_degenerate EARSMExample
    { kOmegaExample with alphaK_ := 11 / 10, nut_ := fun _ => 1 }
    { EARSMTransExample with alphaK_ := 11 / 10 } (11 / 10) (fun _ => 1 / 3) rfl rfl
  ⟨⟨rfl, rfl⟩, h.2.1 rfl rfl rfl, h.2.2 rfl rfl rfl⟩

/-- C19: every effective diffusivity is at least the molecular viscosity, hence strictly
positive when the molecular viscosity is: kOmega and EARSMTrans `DkEff`/`DomegaEff` for
non-negative coefficients and eddy viscosity, kv2Omega `DkEff`/`DomegaEff` for positive
`sigmaK`, `sigmaW` and non-negative `alphaT`, gammaSST `DgammaEff` for positive `sigmaGamma`,
and EARSM `DkEff`/`DomegaEff` for non-negative inner and outer coefficients and a blending
field in the unit interval. -/
theorem effective_diffusivity_ge_nu {n : ℕ} (b : kOmega n) (t : EARSMTrans n)
    (v : kv2Omega n) (g : gammaSST n) (e : EARSM n) (alphaT fMix : volScalarField n)
    (i : Fin n)
    (hb : 0 ≤ b.alphaK_ ∧ 0 ≤ b.alphaOmega_ ∧ 0 ≤ b.nut_ i)
    (ht : 0 ≤ t.alphaK_ ∧ 0 ≤ t.alphaOmega_ ∧ 0 ≤ t.nut_ i)
    (hv : 0 < v.sigmaK_ ∧ 0 < v.sigmaW_ ∧ 0 ≤ alphaT i)
    (hg : 0 < g.sigmaGamma_ ∧ 0 ≤ g.nut_ i)
    (he : 0 ≤ e.alphaK1_ ∧ 0 ≤ e.alphaK2_ ∧ 0 ≤ e.alphaOmega1_ ∧ 0 ≤ e.alphaOmega2_ ∧
      0 ≤ e.nut_ i)
    (hF : 0 ≤ fMix i ∧ fMix i ≤ 1) :
    (b.nu i ≤ b.DkEff i ∧ b.nu i ≤ b.DomegaEff i ∧
      (0 < b.nu i → 0 < b.DkEff i ∧ 0 < b.DomegaEff i)) ∧
    (t.nu i ≤ t.DkEff i ∧ t.nu i ≤ t.DomegaEff i ∧
      (0 < t.nu i → 0 < t.DkEff i ∧ 0 < t.DomegaEff i)) ∧
    (v.nu i ≤ v.DkEff alphaT i ∧ v.nu i ≤ v.DomegaEff alphaT i ∧
      (0 < v.nu i → 0 < v.DkEff alphaT i ∧ 0 < v.DomegaEff alphaT i)) ∧
    (g.nu i ≤ g.DgammaEff i ∧ (0 < g.nu i → 0 < g.DgammaEff i)) ∧
    (e.nu i ≤ e.DkEff fMix i ∧ e.nu i ≤ e.DomegaEff fMix i ∧
      (0 < e.nu i → 0 < e.DkEff fMix i ∧ 0 < e.DomegaEff fMix i)) := by
  obtain ⟨hb1, hb2, hb3⟩ := hb
  obtain ⟨ht1, ht2, ht3⟩ := ht
  obtain ⟨hv1, hv2, hv3⟩ := hv
  obtain ⟨hg1, hg2⟩ := hg
  obtain ⟨he1, he2, he3, he4, he5⟩ := he
  obtain ⟨hF0, hF1⟩ := hF
  have bK : b.nu i ≤ b.DkEff i := le_add_of_nonneg_left (mul_nonneg hb1 hb3)
  have bW : b.nu i ≤ b.DomegaEff i := le_add_of_nonneg_left (mul_nonneg hb2 hb3)
  have tK : t.nu i ≤ t.DkEff i := le_add_of_nonneg_left (mul_nonneg ht1 ht3)
  have tW : t.nu i ≤ t.DomegaEff i := le_add_of_nonneg_left (mul_nonneg ht2 ht3)
  have vK : v.nu i ≤ v.DkEff alphaT i := le_add_of_nonneg_left (div_nonneg hv3 hv1.le)
  have vW : v.nu i ≤ v.DomegaEff alphaT i := le_add_of_nonneg_left (div_nonneg hv3 hv2.le)
  have gG : g.nu i ≤ g.DgammaEff i := le_add_of_nonneg_left (div_nonneg hg2 hg1.le)
  have cK : 0 ≤ e.alphaK fMix i := by
    have h : e.alphaK fMix i = fMix i * e.alphaK1_ + (1 - fMix i) * e.alphaK2_ := by
      simp only [EARSM.alphaK, EARSM.blend]
      ring
    rw [h]
    exact add_nonneg (mul_nonneg hF0 he1) (mul_nonneg (sub_nonneg.2 hF1) he2)
  have cW : 0 ≤ e.alphaOmega fMix i := by
    have h : e.alphaOmega fMix i
        = fMix i * e.alphaOmega1_ + (1 - fMix i) * e.alphaOmega2_ := by
      simp only [EARSM.alphaOmega, EARSM.blend]
      ring
    rw [h]
    exact add_nonneg (mul_nonneg hF0 he3) (mul_nonneg (sub_nonneg.2 hF1) he4)
  have eK : e.nu i ≤ e.DkEff fMix i := le_add_of_nonneg_left (mul_nonneg cK he5)
  have eW : e.nu i ≤ e.DomegaEff fMix i := le_add_of_nonneg_left (mul_nonneg cW he5)
  exact ⟨⟨bK, bW, fun h => ⟨lt_of_lt_of_le h bK, lt_of_lt_of_le h bW⟩⟩,
    ⟨tK, tW, fun h => ⟨lt_of_lt_of_le h tK, lt_of_lt_of_le h tW⟩⟩,
    ⟨vK, vW, fun h => ⟨lt_of_lt_of_le h vK, lt_of_lt_of_le h vW⟩⟩,
    ⟨gG, fun h => lt_of_lt_of_le h gG⟩,
    ⟨eK, eW, fun h => ⟨lt_of_lt_of_le h eK, lt_of_lt_of_le h eW⟩⟩⟩

/-- Instance of C19: the five example models with their default coefficients, `alphaT = 2`
and the blending field at one half. -/
theorem effective_diffusivity_ge_nu_witness :
    ((0 ≤ kOmegaExample.alphaK_ ∧ 0 ≤ kOmegaExample.alphaOmega_ ∧ 0 ≤ kOmegaExample.nut_ 0) ∧
      (0 ≤ EARSMTransExample.alphaK_ ∧ 0 ≤ EARSMTransExample.alphaOmega_ ∧
        0 ≤ EARSMTransExample.nut_ 0) ∧
      (0 < kv2OmegaExample.sigmaK_ ∧ 0 < kv2OmegaExample.sigmaW_ ∧
        (0 : scalar) ≤ (fun _ => 2 : volScalarField 1) 0) ∧
      (0 < gammaSSTExample.sigmaGamma_ ∧ 0 ≤ gammaSSTExample.nut_ 0) ∧
      (0 ≤ EARSMExample.alphaK1_ ∧ 0 ≤ EARSMExample.alphaK2_ ∧ 0 ≤ EARSMExample.alphaOmega1_ ∧
        0 ≤ EARSMExample.alphaOmega2_ ∧ 0 ≤ EARSMExample.nut_ 0) ∧
      ((0 : scalar) ≤ (fun _ => 1 / 2 : volScalarField 1) 0 ∧
        (fun _ => 1 / 2 : volScalarField 1) 0 ≤ 1)) ∧
    (kOmegaExample.nu 0 ≤ kOmegaExample.DkEff 0 ∧
      EARSMTransExample.nu 0 ≤ EARSMTransExample.DomegaEff 0 ∧
      kv2OmegaExample.nu 0 ≤ kv2OmegaExample.DkEff (fun _ => 2) 0 ∧
      kv2OmegaExample.nu 0 ≤ kv2OmegaExample.DomegaEff (fun _ => 2) 0 ∧
      gammaSSTExample.nu 0 ≤ gammaSSTExample.DgammaEff 0 ∧
      EARSMExample.nu 0 ≤ EARSMExample.DkEff (fun _ => 1 / 2) 0 ∧
      EARSMExample.nu 0 ≤ EARSMExample.DomegaEff (fun _ => 1 / 2) 0) :=
  have hb : 0 ≤ kOmegaExample.alphaK_ ∧ 0 ≤ kOmegaExample.alphaOmega_ ∧
      0 ≤ kOmegaExample.nut_ 0 := by norm_num [kOmegaExample]
  have ht : 0 ≤ EARSMTransExample.alphaK_ ∧ 0 ≤ EARSMTransExample.alphaOmega_ ∧
      0 ≤ EARSMTransExample.nut_ 0 := by norm_num [EARSMTransExample]
  have hv : 0 < kv2OmegaExample.sigmaK_ ∧ 0 < kv2OmegaExample.sigmaW_ ∧
      (0 : scalar) ≤ (fun _ => 2 : volScalarField 1) 0 := by norm_num [kv2OmegaExample]
  have hg : 0 < gammaSSTExample.sigmaGamma_ ∧ 0 ≤ gammaSSTExample.nut_ 0 := by
    norm_num [gammaSSTExample]
  have he : 0 ≤ EARSMExample.alphaK1_ ∧ 0 ≤ EARSMExample.alphaK2_ ∧
      0 ≤ EARSMExample.alphaOmega1_ ∧ 0 ≤ EARSMExample.alphaOmega2_ ∧
      0 ≤ EARSMExample.nut_ 0 := by norm_num [EARSMExample]
  have hF : (0 : scalar) ≤ (fun _ => 1 / 2 : volScalarField 1) 0 ∧
      (fun _ => 1 / 2 : volScalarField 1) 0 ≤ 1 := by norm_num
  have h := effective_diffusivity_ge_nu kOmegaExample EARSMTransExample kv2OmegaExample
    gammaSSTExample EARSMExample (fun _ => 2) (fun _ => 1 / 2) 0 hb ht hv hg he hF
  ⟨⟨hb, ht, hv, hg, he, hF⟩, h.1.1, h.2.1.2.1, h.2.2.1.1, h.2.2.1.2.1, h.2.2.2.1.1,
    h.2.2.2.2.1, h.2.2.2.2.2.1⟩

/-- C21: `Rt()` is `k/(nu*omega)`; under the realizability bounds (`nu > 0`,
`omega ≥ omegaMin > 0`, `k ≥ kMin > 0`) its denominator is strictly positive, so that
`Rt*(nu*omega) = k` and `Rt > 0`; `Rt` does not decrease when k is raised and does not
increase when omega is raised. -/
theorem gammaSST_Rt_pos_mono {n : ℕ} (m : gammaSST n) (k' omega' : volScalarField n)
    (i : Fin n) (hnu : 0 < m.nu i)
    (hwMin : 0 < m.omegaMin_) (hw : m.omegaMin_ ≤ m.omega_ i)
    (hkMin : 0 < m.kMin_) (hk : m.kMin_ ≤ m.k_ i) :
    m.Rt i = m.k_ i / (m.nu i * m.omega_ i) ∧
    0 < m.nu i * m.omega_ i ∧
    m.Rt i * (m.nu i * m.omega_ i) = m.k_ i ∧
    0 < m.Rt i ∧
    (m.k_ i ≤ k' i → m.Rt i ≤ ({ m with k_ := k' } : gammaSST n).Rt i) ∧
    (m.omega_ i ≤ omega' i → ({ m with omega_ := omega' } : gammaSST n).Rt i ≤ m.Rt i) := by
  have hw0 : 0 < m.omega_ i := lt_of_lt_of_le hwMin hw
  have hk0 : 0 < m.k_ i := lt_of_lt_of_le hkMin hk
  have hden : 0 < m.nu i * m.omega_ i := mul_pos hnu hw0
  refine ⟨rfl, hden, div_mul_cancel₀ _ hden.ne.symm, div_pos hk0 hden, ?_, ?_⟩
  · intro h
    exact div_le_div_of_nonneg_right h hden.le
  · intro h
    exact div_le_div_of_nonneg_left hk0.le hden (mul_le_mul_of_nonneg_left h hnu.le)

/-- Instance of C21: the example cell (`k = 1`, `omega = 1`, `nu = 1e-5`, floors `1e-6`),
where `Rt = 100000`, compared with `k = 2` and with `omega = 2`. -/
theorem gammaSST_Rt_pos_mono_witness :
    (0 < gammaSSTExample.nu 0 ∧
      0 < gammaSSTExample.omegaMin_ ∧ gammaSSTExample.omegaMin_ ≤ gammaSSTExample.omega_ 0 ∧
      0 < gammaSSTExample.kMin_ ∧ gammaSSTExample.kMin_ ≤ gammaSSTExample.k_ 0) ∧
    gammaSSTExample.Rt 0 = 100000 ∧
    0 < gammaSSTExample.Rt 0 ∧
    gammaSSTExample.Rt 0 ≤ ({ gammaSSTExample with k_ := fun _ => 2 } : gammaSST 1).Rt 0 ∧
    ({ gammaSSTExample with omega_ := fun _ => 2 } : gammaSST 1).Rt 0 ≤ gammaSSTExample.Rt 0 :=
  have h := gammaSST_Rt_pos_mono gammaSSTExample (fun _ => 2) (fun _ => 2) 0
    (by norm_num [gammaSSTExample]) (by norm_num [gammaSSTExample])
    (by norm_num [gammaSSTExample]) (by norm_num [gammaSSTExample])
    (by norm_num [gammaSSTExample])
  ⟨⟨by norm_num [gammaSSTExample], by norm_num [gammaSSTExample],
      by norm_num [gammaSSTExample], by norm_num [gammaSSTExample],
      by norm_num [gammaSSTExample]⟩,
    by norm_num [gammaSST.Rt, gammaSSTExample], h.2.2.2.1,
    h.2.2.2.2.1 (by norm_num [gammaSSTExample]),
    h.2.2.2.2.2 (by norm_num [gammaSSTExample])⟩

/-! ### Properties of the binary64 rounding -/

theorem floor_le_roundHalfEven (s : ℚ) : ⌊s⌋ ≤ roundHalfEven s := by
  unfold roundHalfEven
  split_ifs <;> omega

/-- Rounding to an integer never goes above the floor plus one. -/
theorem roundHalfEven_le_floor_add_one (s : ℚ) : roundHalfEven s ≤ ⌊s⌋ + 1 := by
  unfold roundHalfEven
  split_ifs <;> omega

/-- An integer rounds to itself. -/
theorem roundHalfEven_intCast (m : ℤ) : roundHalfEven (m : ℚ) = m := by
  simp [roundHalfEven]

/-- Rounding to an integer is monotone. -/
theorem roundHalfEven_mono {s t : ℚ} (h : s ≤ t) : roundHalfEven s ≤ roundHalfEven t := by
  rcases (Int.floor_mono h).lt_or_eq with hlt | heq
  · calc roundHalfEven s ≤ ⌊s⌋ + 1 := roundHalfEven_le_floor_add_one s
      _ ≤ ⌊t⌋ := hlt
      _ ≤ roundHalfEven t := floor_le_roundHalfEven t
  · simp only [roundHalfEven, heq]
    split_ifs <;> first | omega | (exfalso; linarith)

/-- An integer closer than one half is the rounded value. -/
theorem roundHalfEven_eq_of_abs_sub_lt {s : ℚ} {m : ℤ} (h : |s - m| < 1 / 2) :
    roundHalfEven s = m := by
  rw [abs_lt] at h
  obtain ⟨h1, h2⟩ := h
  by_cases hm : (m : ℚ) ≤ s
  · have hf : ⌊s⌋ = m := Int.floor_eq_iff.2 ⟨hm, by linarith⟩
    simp only [roundHalfEven, hf]
    rw [if_pos (by linarith)]
  · have hf : ⌊s⌋ = m - 1 :=
      Int.floor_eq_iff.2 ⟨by push_cast; linarith, by push_cast; linarith⟩
    simp only [roundHalfEven, hf]
    rw [if_neg (by push_cast; linarith), if_pos (by push_cast; linarith)]
    ring

namespace binary64

/-- Zero rounds to zero. -/
theorem roundMagnitude_zero : roundMagnitude 0 = 0 := by
  simp [roundMagnitude, roundHalfEven]

/-- The rounded magnitude is non-negative. -/
theorem roundMagnitude_nonneg {x : ℚ} (hx : 0 ≤ x) : 0 ≤ roundMagnitude x := by
  have h2 : (0 : ℚ) < 2 ^ ulpExponent x := zpow_pos (by norm_num) _
  have h : (0 : ℤ) ≤ roundHalfEven (x / 2 ^ ulpExponent x) := by
    have := roundHalfEven_mono (div_nonneg hx h2.le)
    rwa [show roundHalfEven (0 : ℚ) = 0 from by simpa using roundHalfEven_intCast 0] at this
  exact mul_nonneg (by exact_mod_cast h) h2.le

/-- The unit in the last place grows with the magnitude. -/
theorem ulpExponent_mono {x y : ℚ} (hx : 0 < x) (h : x ≤ y) :
    ulpExponent x ≤ ulpExponent y :=
  max_le_max (sub_le_sub_right (Int.log_mono_right hx h) _) le_rfl

/-- Rounding of magnitudes is monotone. -/
theorem roundMagnitude_mono {x y : ℚ} (hx : 0 < x) (h : x ≤ y) :
    roundMagnitude x ≤ roundMagnitude y := by
  have hy : 0 < y := lt_of_lt_of_le hx h
  have two : (1 : ℚ) ≤ 2 := by norm_num
  have two0 : (2 : ℚ) ≠ 0 := by norm_num
  have hpx : (0 : ℚ) < 2 ^ ulpExponent x := zpow_pos (by norm_num) _
  have hpy : (0 : ℚ) < 2 ^ ulpExponent y := zpow_pos (by norm_num) _
  rcases (ulpExponent_mono hx h).lt_or_eq with hlt | heq
  · -- different binades: a power of two lies between the two rounded values
    have hq := hlt
    unfold ulpExponent at hq
    rw [max_lt_iff, lt_max_iff, lt_max_iff] at hq
    obtain ⟨h1, h2⟩ := hq
    have hlog : Int.log 2 x < Int.log 2 y := by omega
    have hqy : ulpExponent y = Int.log 2 y - 52 := by
      unfold ulpExponent
      exact max_eq_left (by omega)
    have hqx : ulpExponent x < Int.log 2 y := by
      have : ulpExponent x < Int.log 2 y - 52 := hqy ▸ hlt
      omega
    -- lower bound for the larger argument
    have hlow : (2 : ℚ) ^ Int.log 2 y ≤ roundMagnitude y := by
      have hy1 : (2 : ℚ) ^ Int.log 2 y ≤ y := by
        simpa using Int.zpow_log_le_self (b := 2) (by norm_num) hy
      have e1 : (2 : ℚ) ^ Int.log 2 y = ((2 ^ 52 : ℤ) : ℚ) * 2 ^ ulpExponent y := by
        rw [hqy, Int.cast_pow, Int.cast_ofNat, ← zpow_natCast, ← zpow_add₀ two0]
        congr 1
        push_cast
        ring
      have hs : ((2 ^ 52 : ℤ) : ℚ) ≤ y / 2 ^ ulpExponent y := by
        rw [le_div_iff₀ hpy, ← e1]
        exact hy1
      have hr : (2 ^ 52 : ℤ) ≤ roundHalfEven (y / 2 ^ ulpExponent y) := by
        have := roundHalfEven_mono hs
        rwa [roundHalfEven_intCast] at this
      rw [e1]
      unfold roundMagnitude
      exact mul_le_mul_of_nonneg_right (by exact_mod_cast hr) hpy.le
    -- upper bound for the smaller argument
    obtain ⟨k, hk⟩ : ∃ k : ℕ, (k : ℤ) = max (Int.log 2 x + 1 - ulpExponent x) 0 :=
      ⟨(max (Int.log 2 x + 1 - ulpExponent x) 0).toNat,
        Int.toNat_of_nonneg (le_max_right _ _)⟩
    have hupp : roundMagnitude x ≤ (2 : ℚ) ^ ((k : ℤ) + ulpExponent x) := by
      have hx1 : x < (2 : ℚ) ^ (Int.log 2 x + 1) := by
        simpa using Int.lt_zpow_succ_log_self (b := 2) (by norm_num) x
      have hs : x / 2 ^ ulpExponent x ≤ ((2 ^ k : ℤ) : ℚ) := by
        rw [div_le_iff₀ hpx, Int.cast_pow, Int.cast_ofNat, ← zpow_natCast,
          ← zpow_add₀ two0]
        refine le_trans hx1.le (zpow_le_zpow_right₀ two ?_)
        have := le_max_left (Int.log 2 x + 1 - ulpExponent x) 0
        omega
      have hr : roundHalfEven (x / 2 ^ ulpExponent x) ≤ (2 ^ k : ℤ) := by
        have := roundHalfEven_mono hs
        rwa [roundHalfEven_intCast] at this
      have e2 : (2 : ℚ) ^ ((k : ℤ) + ulpExponent x)
          = ((2 ^ k : ℤ) : ℚ) * 2 ^ ulpExponent x := by
        rw [Int.cast_pow, Int.cast_ofNat, ← zpow_natCast, ← zpow_add₀ two0]
      rw [e2]
      unfold roundMagnitude
      exact mul_le_mul_of_nonneg_right (by exact_mod_cast hr) hpx.le
    have hmid : (2 : ℚ) ^ ((k : ℤ) + ulpExponent x) ≤ (2 : ℚ) ^ Int.log 2 y := by
      refine zpow_le_zpow_right₀ two ?_
      rcases max_cases (Int.log 2 x + 1 - ulpExponent x) 0 with ⟨hm, _⟩ | ⟨hm, _⟩ <;>
        omega
    exact le_trans hupp (le_trans hmid hlow)
  · unfold roundMagnitude
    rw [heq]
    have hs : x / 2 ^ ulpExponent y ≤ y / 2 ^ ulpExponent y :=
      div_le_div_of_nonneg_right h hpy.le
    exact mul_le_mul_of_nonneg_right (by exact_mod_cast roundHalfEven_mono hs) hpy.le

/-- Rounding to binary64 is monotone. -/
theorem fl_mono {x y : ℚ} (h : x ≤ y) : fl x ≤ fl y := by
  unfold fl
  by_cases hx : 0 ≤ x
  · have hy : 0 ≤ y := le_trans hx h
    rw [if_pos hx, if_pos hy]
    rcases hx.lt_or_eq with hx0 | hx0
    · exact roundMagnitude_mono hx0 h
    · rw [← hx0, roundMagnitude_zero]
      exact roundMagnitude_nonneg hy
  · have hx' : 0 < -x := by linarith
    rw [if_neg hx]
    by_cases hy : 0 ≤ y
    · rw [if_pos hy]
      have h1 := roundMagnitude_nonneg hx'.le
      have h2 := roundMagnitude_nonneg hy
      linarith
    · rw [if_neg hy]
      have hy' : 0 < -y := by linarith
      have := roundMagnitude_mono hy' (by linarith : -y ≤ -x)
      linarith

/-- Evaluation of the rounding on a positive argument whose binade is known. -/
theorem fl_eq_of_binade {x : ℚ} {e q m : ℤ} (hlo : (2 : ℚ) ^ e ≤ x)
    (hhi : x < (2 : ℚ) ^ (e + 1)) (hq : max (e - 52) (-1074) = q)
    (hm : |x / 2 ^ q - m| < 1 / 2) : fl x = m * 2 ^ q := by
  have hx : 0 < x := lt_of_lt_of_le (zpow_pos (by norm_num) _) hlo
  have hlog : Int.log 2 x = e := by
    have h1 : e ≤ Int.log 2 x :=
      (Int.zpow_le_iff_le_log (b := 2) (by norm_num) hx).1 (by simpa using hlo)
    have h2 : Int.log 2 x < e + 1 :=
      (Int.lt_zpow_iff_log_lt (b := 2) (by norm_num) hx).1 (by simpa using hhi)
    omega
  have hu : ulpExponent x = q := by
    unfold ulpExponent
    rw [hlog, hq]
  unfold fl roundMagnitude
  rw [if_pos hx.le, hu, roundHalfEven_eq_of_abs_sub_lt hm]

end binary64

/-! ### Concrete binary64 values -/

/-- One is a binary64 value. -/
theorem binary64.fl_one : binary64.fl (1) = 1 := by
  have hx : (1 : ℚ) = 1 := by norm_num
  rw [hx, binary64.fl_eq_of_binade (x := 1) (e := 0) (q := -52)
    (m := 4503599627370496) (by norm_num) (by norm_num) (by decide) (by norm_num [abs_lt])]
  norm_num

/-- Three is a binary64 value. -/
theorem binary64.fl_three : binary64.fl (3) = 3 := by
  have hx : (3 : ℚ) = 3 := by norm_num
  rw [hx, binary64.fl_eq_of_binade (x := 3) (e := 1) (q := -51)
    (m := 6755399441055744) (by norm_num) (by norm_num) (by decide) (by norm_num [abs_lt])]
  norm_num

/-- One half is a binary64 value. -/
theorem binary64.fl_half : binary64.fl (1 / 2) = 1 / 2 := by
  have hx : (1 / 2 : ℚ) = 1 / 2 := by norm_num
  rw [hx, binary64.fl_eq_of_binade (x := 1 / 2) (e := -1) (q := -53)
    (m := 4503599627370496) (by norm_num) (by norm_num) (by decide) (by norm_num [abs_lt])]
  norm_num

/-- Adding one half to `1e17` is absorbed. -/
theorem binary64.fl_half_add_1e17 : binary64.fl (1 / 2 + 10 ^ 17) = 100000000000000000 := by
  have hx : (1 / 2 + 10 ^ 17 : ℚ) = 200000000000000001 / 2 := by norm_num
  rw [hx, binary64.fl_eq_of_binade (x := 200000000000000001 / 2) (e := 56) (q := 4)
    (m := 6250000000000000) (by norm_num) (by norm_num) (by decide) (by norm_num [abs_lt])]
  norm_num

/-- Adding one to `1e17` is absorbed. -/
theorem binary64.fl_one_add_1e17 : binary64.fl (1 + 10 ^ 17) = 100000000000000000 := by
  have hx : (1 + 10 ^ 17 : ℚ) = 100000000000000001 := by norm_num
  rw [hx, binary64.fl_eq_of_binade (x := 100000000000000001) (e := 56) (q := 4)
    (m := 6250000000000000) (by norm_num) (by norm_num) (by decide) (by norm_num [abs_lt])]
  norm_num

/-- Six is a binary64 value. -/
theorem binary64.fl_six : binary64.fl (6) = 6 := by
  have hx : (6 : ℚ) = 6 := by norm_num
  rw [hx, binary64.fl_eq_of_binade (x := 6) (e := 2) (q := -50)
    (m := 6755399441055744) (by norm_num) (by norm_num) (by decide) (by norm_num [abs_lt])]
  norm_num

/-- One is a finite binary64 value. -/
theorem binary64.isValue_one : binary64.isValue (1) :=
  ⟨binary64.fl_one, by norm_num [abs_lt]⟩

/-- A machine operation returns `y` exactly when it stays finite and rounds to `y`. -/
theorem binary64.result_eq_some_iff {x y : ℚ} :
    binary64.result x = some y ↔ |binary64.fl x| < 2 ^ 1024 ∧ binary64.fl x = y := by
  unfold binary64.result
  split_ifs with h
  · simp [h]
  · simp [h]

/-- An operation that rounds to the finite value `y` returns `y`. -/
theorem binary64.result_of_fl {x y : ℚ} (h : binary64.fl x = y) (hy : |y| < 2 ^ 1024) :
    binary64.result x = some y :=
  binary64.result_eq_some_iff.2 ⟨by rw [h]; exact hy, h⟩

/-- An operation whose exact result is a finite binary64 value returns that value. -/
theorem binary64.result_of_isValue {x : ℚ} (h : binary64.isValue x) :
    binary64.result x = some x :=
  binary64.result_of_fl h.1 h.2

/-- Machine operations preserve the order of their exact results. -/
theorem binary64.result_mono {x y a b : ℚ} (hx : binary64.result x = some a)
    (hy : binary64.result y = some b) (h : x ≤ y) : a ≤ b := by
  rw [← (binary64.result_eq_some_iff.1 hx).2, ← (binary64.result_eq_some_iff.1 hy).2]
  exact binary64.fl_mono h

/-- C20, as stated, fails: with `k = 1`, `v2 = 0.5`, `omega = 1` and `D(k) = 1e17` the
dissipation rate equals `omega*k + D(k)`, both being `1e17`, although `v2 < k` and
`omega ≠ 0`: the smaller product is absorbed by the sum. -/
theorem kv2Omega_epsilon_absorbed :
    binary64.kv2Omega.epsilon kv2OmegaAbsorbExample (fun _ _ => 10 ^ 17) 0 = some (10 ^ 17) ∧
    binary64.kv2Omega.omegaKPlusD kv2OmegaAbsorbExample (fun _ _ => 10 ^ 17) 0
      = some (10 ^ 17) ∧
    ¬ (kv2OmegaAbsorbExample.k_ 0 ≤ kv2OmegaAbsorbExample.v2_ 0 ∨
        kv2OmegaAbsorbExample.omega_ 0 = 0) := by
  have h1 : binary64.result ((1 : ℚ) * min 1 (1 / 2)) = some (1 / 2) := by
    rw [show (1 : ℚ) * min 1 (1 / 2) = 1 / 2 by norm_num]
    exact binary64.result_of_fl binary64.fl_half (by norm_num [abs_lt])
  have h2 : binary64.result ((1 : ℚ) / 2 + 10 ^ 17) = some (10 ^ 17) :=
    binary64.result_of_fl (binary64.fl_half_add_1e17.trans (by norm_num))
      (by norm_num [abs_lt])
  have h3 : binary64.result ((1 : ℚ) * 1) = some 1 := by
    rw [mul_one]
    exact binary64.result_of_isValue binary64.isValue_one
  have h4 : binary64.result ((1 : ℚ) + 10 ^ 17) = some (10 ^ 17) :=
    binary64.result_of_fl (binary64.fl_one_add_1e17.trans (by norm_num))
      (by norm_num [abs_lt])
  refine ⟨?_, ?_, ?_⟩
  · show (binary64.result ((1 : ℚ) * min 1 (1 / 2))).bind
      (fun p => binary64.result (p + 10 ^ 17)) = some (10 ^ 17)
    rw [h1, Option.some_bind, h2]
  · show (binary64.result ((1 : ℚ) * 1)).bind
      (fun p => binary64.result (p + 10 ^ 17)) = some (10 ^ 17)
    rw [h3, Option.some_bind, h4]
  · show ¬ ((1 : scalar) ≤ 1 / 2 ∨ (1 : scalar) = 0)
    norm_num

/-- C20, amended: the kv2Omega dissipation rate is the machine value of
`omega*min(k, v2) + D(k)`; for `omega ≥ 0` it is at most the machine value of
`omega*k + D(k)`, with equality whenever `v2 ≥ k` or `omega = 0`, and it keeps its value when
`v2` is raised from a value that is already at least `k`. -/
theorem kv2Omega_epsilon_le {n : ℕ} (m : kv2Omega n)
    (D : volScalarField n → volScalarField n) (v2' : volScalarField n) (i : Fin n)
    (hw : 0 ≤ m.omega_ i) :
    (binary64.kv2Omega.epsilon m D i
      = (binary64.result (m.omega_ i * min (m.k_ i) (m.v2_ i))).bind fun p =>
          binary64.result (p + D m.k_ i)) ∧
    (∀ a b, binary64.kv2Omega.epsilon m D i = some a →
      binary64.kv2Omega.omegaKPlusD m D i = some b → a ≤ b) ∧
    (m.k_ i ≤ m.v2_ i ∨ m.omega_ i = 0 →
      binary64.kv2Omega.epsilon m D i = binary64.kv2Omega.omegaKPlusD m D i) ∧
    (m.k_ i ≤ m.v2_ i → m.v2_ i ≤ v2' i →
      binary64.kv2Omega.epsilon ({ m with v2_ := v2' } : kv2Omega n) D i
        = binary64.kv2Omega.epsilon m D i) := by
  refine ⟨rfl, ?_, ?_, ?_⟩
  · intro a b ha hb
    simp only [binary64.kv2Omega.epsilon, binary64.kv2Omega.omegaKPlusD,
      Option.bind_eq_some] at ha hb
    obtain ⟨p, hp, hs⟩ := ha
    obtain ⟨p', hp', hs'⟩ := hb
    have hpp : p ≤ p' :=
      binary64.result_mono hp hp' (mul_le_mul_of_nonneg_left (min_le_left _ _) hw)
    exact binary64.result_mono hs hs' (add_le_add_right hpp _)
  · rintro (h | h)
    · simp only [binary64.kv2Omega.epsilon, binary64.kv2Omega.omegaKPlusD, min_eq_left h]
    · simp only [binary64.kv2Omega.epsilon, binary64.kv2Omega.omegaKPlusD, h, zero_mul]
  · intro h1 h2
    simp only [binary64.kv2Omega.epsilon, min_eq_left h1, min_eq_left (le_trans h1 h2)]

/-- Instance of C20 (amended): in the example cell `v2 = 1 < k = 2`, `omega = 3` and `D = 0`,
so the dissipation rate is 3, different from `betaStar*k*omega = 0.54`, and at most the
machine value 6 of `omega*k + D(k)`. -/
theorem kv2Omega_epsilon_le_witness :
    (0 ≤ kv2OmegaExample.omega_ 0 ∧
      binary64.kv2Omega.epsilon kv2OmegaExample (fun _ _ => 0) 0 = some 3 ∧
      binary64.kv2Omega.omegaKPlusD kv2OmegaExample (fun _ _ => 0) 0 = some 6 ∧
      (3 : scalar)
        ≠ kv2OmegaExample.betaStar_ * kv2OmegaExample.k_ 0 * kv2OmegaExample.omega_ 0) ∧
    (3 : scalar) ≤ 6 :=
  have r3 : binary64.result (3 : ℚ) = some 3 :=
    binary64.result_of_fl binary64.fl_three (by norm_num [abs_lt])
  have r6 : binary64.result (6 : ℚ) = some 6 :=
    binary64.result_of_fl binary64.fl_six (by norm_num [abs_lt])
  have h3 : binary64.kv2Omega.epsilon kv2OmegaExample (fun _ _ => 0) 0 = some 3 := by
    show (binary64.result ((3 : ℚ) * min 2 1)).bind (fun p => binary64.result (p + 0))
      = some 3
    rw [show (3 : ℚ) * min 2 1 = 3 by norm_num, r3, Option.some_bind, add_zero, r3]
  have h6 : binary64.kv2Omega.omegaKPlusD kv2OmegaExample (fun _ _ => 0) 0 = some 6 := by
    show (binary64.result ((3 : ℚ) * 2)).bind (fun p => binary64.result (p + 0)) = some 6
    rw [show (3 : ℚ) * 2 = 6 by norm_num, r6, Option.some_bind, add_zero, r6]
  ⟨⟨by norm_num [kv2OmegaExample], h3, h6, by norm_num [kv2OmegaExample]⟩,
    (kv2Omega_epsilon_le kv2OmegaExample (fun _ _ => 0) (fun _ => 5) 0
      (by norm_num [kv2OmegaExample])).2.1 3 6 h3 h6⟩

end Foam
